import Mathlib

/-!
# Verification of the BDO trading-post ingestion core

Shallow embedding of the ingestion/decode/normalize pipeline of the
repository (`app.py`, `bdo_search/app.py`) and proofs about it.

Modelling conventions:
* decoded wire payloads and record fields are `List Char`
  (Python strings restricted to the operations the code uses);
* Python `str.strip("|")` is `pyStrip '|'`, `str.split(sep)` on a
  one-character separator is `List.splitOn`, which has the same semantics
  on empty strings and empty records;
* Python `int(...)` on the canonical numerals occurring on this wire
  (optional sign followed by decimal digits) is `pyInt`; a raised
  `ValueError` is `none`;
* a raised exception in fallible code is modelled with `Option`/`Except`;
* the localized-timestamp formatter `unix_to_local_time` (timezone and
  strftime formatting, not representable in the embedding) is an explicit
  function parameter `fmt : Int → String` of every definition that derives
  a timestamp string; every theorem quantifies over it.
-/

namespace BdoArb

/-- The decimal digit character for `d ∈ [0,9]` (any other input maps to `'0'`;
it is only ever applied to `n % 10` and small remainders). -/
def digitChar (d : Nat) : Char :=
  match d with
  | 0 => '0' | 1 => '1' | 2 => '2' | 3 => '3' | 4 => '4'
  | 5 => '5' | 6 => '6' | 7 => '7' | 8 => '8' | 9 => '9'
  | _ => '0'

/-- Value of a decimal digit character, `none` on any non-digit. -/
def digitVal (c : Char) : Option Nat :=
  if 48 ≤ c.toNat ∧ c.toNat ≤ 57 then some (c.toNat - 48) else none

/-- Accumulating decimal parse of a digit string; fails on any non-digit. -/
def parseDigitsAux (acc : Nat) : List Char → Option Nat
  | [] => some acc
  | c :: cs =>
    match digitVal c with
    | none => none
    | some d => parseDigitsAux (acc * 10 + d) cs

/-- Decimal parse of a nonempty digit string. -/
def parseDigits (l : List Char) : Option Nat :=
  if l.isEmpty then none else parseDigitsAux 0 l

/-- Model of Python `int(s)` on the canonical numerals this wire format
carries: an optional `'-'`/`'+'` sign followed by a nonempty run of decimal
digits.  A raised `ValueError` is `none`. -/
def pyInt (l : List Char) : Option Int :=
  match l with
  | [] => none
  | c :: rest =>
    if c = '-' then (parseDigits rest).map (fun n => -(n : Int))
    else if c = '+' then (parseDigits rest).map (fun n => (n : Int))
    else (parseDigits (c :: rest)).map (fun n => (n : Int))

/-- Canonical decimal rendering of a natural number (the digits of `n`). -/
def natChars (n : Nat) : List Char :=
  if h : n < 10 then [digitChar n]
  else natChars (n / 10) ++ [digitChar (n % 10)]
decreasing_by exact Nat.div_lt_self (by omega) (by omega)

/-- Canonical decimal rendering of an integer (sign then digits). -/
def intChars (z : Int) : List Char :=
  if z < 0 then '-' :: natChars z.natAbs else natChars z.toNat

/-- Model of Python `s.strip(c)` for a one-character strip set: remove every
copy of `c` from both ends. -/
def pyStrip (c : Char) (l : List Char) : List Char :=
  ((l.dropWhile (· = c)).reverse.dropWhile (· = c)).reverse

theorem digitVal_digitChar {d : Nat} (h : d < 10) :
    digitVal (digitChar d) = some d := by
  interval_cases d <;> decide

theorem digitChar_not_sign (d : Nat) :
    digitChar d ≠ '-' ∧ digitChar d ≠ '+' ∧ digitChar d ≠ '|' := by
  unfold digitChar
  split <;> exact ⟨by decide, by decide, by decide⟩

theorem natChars_ne_nil (n : Nat) : natChars n ≠ [] := by
  unfold natChars
  split
  · simp
  · simp

theorem mem_natChars {n : Nat} {c : Char} (h : c ∈ natChars n) :
    ∃ d, d < 10 ∧ c = digitChar d := by
  induction n using Nat.strong_induction_on with
  | _ n ih =>
    rw [natChars] at h
    split at h
    · rcases List.mem_singleton.mp h with rfl
      exact ⟨n, by omega, rfl⟩
    · rcases List.mem_append.mp h with h' | h'
      · exact ih (n / 10) (Nat.div_lt_self (by omega) (by omega)) h'
      · rcases List.mem_singleton.mp h' with rfl
        exact ⟨n % 10, Nat.mod_lt _ (by omega), rfl⟩

theorem parseDigitsAux_append (acc : Nat) (l₁ l₂ : List Char) :
    parseDigitsAux acc (l₁ ++ l₂) =
      match parseDigitsAux acc l₁ with
      | none => none
      | some a => parseDigitsAux a l₂ := by
  induction l₁ generalizing acc with
  | nil => simp [parseDigitsAux]
  | cons c cs ih =>
    simp only [List.cons_append, parseDigitsAux]
    cases digitVal c with
    | none => rfl
    | some d => exact ih _

theorem parseDigitsAux_natChars (n : Nat) :
    ∀ acc, parseDigitsAux acc (natChars n) =
      some (acc * 10 ^ (natChars n).length + n) := by
  induction n using Nat.strong_induction_on with
  | _ n ih =>
    intro acc
    rw [natChars]
    split
    · next h =>
      simp [parseDigitsAux, digitVal_digitChar h]
    · next h =>
      rw [parseDigitsAux_append, ih (n / 10) (Nat.div_lt_self (by omega) (by omega))]
      simp only [parseDigitsAux, digitVal_digitChar (Nat.mod_lt n (by omega))]
      have hlen : (natChars (n / 10) ++ [digitChar (n % 10)]).length
          = (natChars (n / 10)).length + 1 := by simp
      rw [hlen, pow_succ]
      have hdm := Nat.div_add_mod n 10
      congr 1
      calc (acc * 10 ^ (natChars (n / 10)).length + n / 10) * 10 + n % 10
          = acc * (10 ^ (natChars (n / 10)).length * 10) + (n / 10 * 10 + n % 10) := by
            ring
        _ = acc * (10 ^ (natChars (n / 10)).length * 10) + n := by omega

theorem parseDigits_natChars (n : Nat) : parseDigits (natChars n) = some n := by
  have h := parseDigitsAux_natChars n 0
  simp only [Nat.zero_mul, Nat.zero_add] at h
  have hne : (natChars n).isEmpty = false := by
    cases hl : natChars n with
    | nil => exact absurd hl (natChars_ne_nil n)
    | cons c cs => rfl
  simp only [parseDigits, hne, Bool.false_eq_true, if_false]
  exact h

theorem pyInt_natChars (n : Nat) : pyInt (natChars n) = some (n : Int) := by
  rcases hl : natChars n with _ | ⟨c, rest⟩
  · exact absurd hl (natChars_ne_nil n)
  · have hc : c ∈ natChars n := by rw [hl]; exact List.mem_cons_self c rest
    rcases mem_natChars hc with ⟨d, hd, rfl⟩
    rcases digitChar_not_sign d with ⟨h1, h2, _⟩
    rw [pyInt, if_neg h1, if_neg h2, ← hl, parseDigits_natChars]
    rfl

theorem pyStrip_cons_sep (c : Char) (l : List Char) :
    pyStrip c (c :: l) = pyStrip c l := by
  simp [pyStrip, List.dropWhile_cons]

theorem pyStrip_eq_self {c : Char} {l : List Char}
    (h1 : l.head? ≠ some c) (h2 : l.getLast? ≠ some c) :
    pyStrip c l = l := by
  cases l with
  | nil => rfl
  | cons a t =>
    have ha : ¬(a = c) := by
      intro h; exact h1 (by simp [h])
    cases hr : (a :: t).reverse with
    | nil => simp at hr
    | cons b s =>
      have hb : (a :: t).getLast? = some b := by
        rw [← List.head?_reverse, hr]; rfl
      have hbc : ¬(b = c) := by
        intro h; exact h2 (by rw [hb, h])
      have key1 : (a :: t).dropWhile (· = c) = a :: t := by
        rw [List.dropWhile_cons]; simp [ha]
      have key2 : (a :: t).reverse.dropWhile (· = c) = (a :: t).reverse := by
        rw [hr, List.dropWhile_cons]; simp [hbc]
      rw [pyStrip, key1, key2, List.reverse_reverse]

theorem pyStrip_append_sep (c : Char) (l : List Char) :
    pyStrip c (l ++ [c]) = pyStrip c l := by
  induction l with
  | nil => simp [pyStrip]
  | cons a t ih =>
    by_cases ha : a = c
    · subst ha
      rw [List.cons_append, pyStrip_cons_sep, pyStrip_cons_sep, ih]
    · rw [List.cons_append, pyStrip, List.dropWhile_cons,
        if_neg (by simpa using ha), pyStrip, List.dropWhile_cons,
        if_neg (by simpa using ha)]
      have : (a :: (t ++ [c])).reverse = c :: (a :: t).reverse := by
        simp
      rw [this, List.dropWhile_cons, if_pos (by simp)]

/-! ## Data model (`CONFIG["MARKET_FIELDS"]` and the parsed record shapes) -/

/-- A parsed market-sublist entry (`parse_market_data`, one dict per record;
field names and order follow `CONFIG["MARKET_FIELDS"]`). -/
structure MarketItem where
  item_id : Int
  enhancement_min : Int
  enhancement_max : Int
  base_price : Int
  current_stock : Int
  total_trades : Int
  price_hardcap_min : Int
  price_hardcap_max : Int
  last_sale_price : Int
  last_sale_time : Int
  last_sale_time_ro : String
deriving DecidableEq

/-- A parsed bidding-ladder level (`parse_bidding_info`). -/
structure BiddingLevel where
  price : Int
  sell_orders : Int
  buy_orders : Int
deriving DecidableEq

/-- A parsed hotlist entry (`fetch_hotlist`).  `item_id` is kept as the raw
text of the first field (Python keeps `fields[0]` as a string). -/
structure HotlistItem where
  item_id : List Char
  enh_min : Int
  enh_max : Int
  base_price : Int
  stock : Int
  total_trades : Int
  price_dir : Int
  price_change : Int
  price_min : Int
  price_max : Int
  last_sale_price : Int
  last_sale_time : Int
  last_sale_time_ro : String
deriving DecidableEq

/-! ## Record parsers (`parse_market_data`, `parse_bidding_info`, and the
inline hotlist loop of `fetch_hotlist`)

Python iterates over the records of a batch, skipping records whose field
count differs from the expected arity; on an arity-correct record it calls
`int(...)` on every field, and a `ValueError` there propagates out of the
whole parse (modelled by the parser returning `none`). -/

/-- `int(...)` applied to every field of one record, all-or-nothing: this is
the dict comprehension / tuple of `int(values[i])` calls, which raises on
the first non-integer field. -/
def parseFields : List (List Char) → Option (List Int)
  | [] => some []
  | v :: vs =>
    match pyInt v, parseFields vs with
    | some n, some ns => some (n :: ns)
    | _, _ => none

/-- Build a `MarketItem` from the ten parsed fields, positionally
(`{CONFIG["MARKET_FIELDS"][i]: int(values[i]) for i in range(10)}` plus the
derived `last_sale_time_ro`). -/
def mkMarketItem (fmt : Int → String) (fs : List Int) : MarketItem :=
  { item_id := fs.getD 0 0
    enhancement_min := fs.getD 1 0
    enhancement_max := fs.getD 2 0
    base_price := fs.getD 3 0
    current_stock := fs.getD 4 0
    total_trades := fs.getD 5 0
    price_hardcap_min := fs.getD 6 0
    price_hardcap_max := fs.getD 7 0
    last_sale_price := fs.getD 8 0
    last_sale_time := fs.getD 9 0
    last_sale_time_ro := fmt (fs.getD 9 0) }

/-- The record loop of `parse_market_data`: arity-10 records are parsed,
other records are skipped, an integer-parse failure aborts the whole batch
(the exception propagates out of the `for` loop). -/
def parseMarketRecords (fmt : Int → String) : List (List Char) → Option (List MarketItem)
  | [] => some []
  | e :: es =>
    let vs := e.splitOn '-'
    if vs.length = 10 then
      match parseFields vs with
      | none => none
      | some fs => (parseMarketRecords fmt es).map (mkMarketItem fmt fs :: ·)
    else parseMarketRecords fmt es

/-- `parse_market_data(result_msg)`: falsy input yields `[]`; otherwise strip
the outer `|`, split on `|` and run the record loop. -/
def parse_market_data (fmt : Int → String) (result_msg : List Char) :
    Option (List MarketItem) :=
  if result_msg = [] then some []
  else parseMarketRecords fmt ((pyStrip '|' result_msg).splitOn '|')

/-- Build a `BiddingLevel` from the three parsed fields, positionally. -/
def mkBiddingLevel (fs : List Int) : BiddingLevel :=
  { price := fs.getD 0 0
    sell_orders := fs.getD 1 0
    buy_orders := fs.getD 2 0 }

/-- The record loop of `parse_bidding_info` (arity 3). -/
def parseBiddingRecords : List (List Char) → Option (List BiddingLevel)
  | [] => some []
  | e :: es =>
    let vs := e.splitOn '-'
    if vs.length = 3 then
      match parseFields vs with
      | none => none
      | some fs => (parseBiddingRecords es).map (mkBiddingLevel fs :: ·)
    else parseBiddingRecords es

/-- `parse_bidding_info(decoded_str)`. -/
def parse_bidding_info (decoded_str : List Char) : Option (List BiddingLevel) :=
  if decoded_str = [] then some []
  else parseBiddingRecords ((pyStrip '|' decoded_str).splitOn '|')

/-- Build a `HotlistItem`: the raw first field plus the eleven parsed
integer fields 1..11, and the derived `last_sale_time_ro`. -/
def mkHotlistItem (fmt : Int → String) (raw0 : List Char) (ns : List Int) :
    HotlistItem :=
  { item_id := raw0
    enh_min := ns.getD 0 0
    enh_max := ns.getD 1 0
    base_price := ns.getD 2 0
    stock := ns.getD 3 0
    total_trades := ns.getD 4 0
    price_dir := ns.getD 5 0
    price_change := ns.getD 6 0
    price_min := ns.getD 7 0
    price_max := ns.getD 8 0
    last_sale_price := ns.getD 9 0
    last_sale_time := ns.getD 10 0
    last_sale_time_ro := fmt (ns.getD 10 0) }

/-- Parse one arity-12 hotlist record: `fields[0]` is kept as raw text
(never passed to `int`), fields 1..11 are integer-parsed. -/
def parseHotlistRecord (fmt : Int → String) (vs : List (List Char)) :
    Option HotlistItem :=
  match parseFields vs.tail with
  | none => none
  | some ns => some (mkHotlistItem fmt (vs.getD 0 []) ns)

/-- The inline record loop of `fetch_hotlist` (arity 12). -/
def parseHotlistRecords (fmt : Int → String) : List (List Char) → Option (List HotlistItem)
  | [] => some []
  | e :: es =>
    let vs := e.splitOn '-'
    if vs.length = 12 then
      match parseHotlistRecord fmt vs with
      | none => none
      | some it => (parseHotlistRecords fmt es).map (it :: ·)
    else parseHotlistRecords fmt es

/-- The decoded-payload handling of `fetch_hotlist` (which, unlike the other
two parsers, has no falsy-input guard: it strips and splits directly). -/
def parse_hotlist_payload (fmt : Int → String) (decoded : List Char) :
    Option (List HotlistItem) :=
  parseHotlistRecords fmt ((pyStrip '|' decoded).splitOn '|')

/-! ## Transport (`api_request`) and fetch wrappers

`api_request` issues one `requests.post`/`requests.get` call, then
`raise_for_status()`; a `requests.RequestException` (network failure or an
HTTP error status) is logged and re-raised.  There is no retry loop.

The environment is modelled by `attempts : Nat → HttpOutcome`: what the
`n`-th HTTP attempt of this call would observe.  `api_request` returns the
outcome together with how many attempts it consumed. -/

/-- A raw upstream response: its HTTP status, what `unpack(response.content)`
would yield (`none` = the binary decoder raises), and what
`response.json().get("resultMsg", "")` would yield (`none` = `.json()`
raises). -/
structure HttpResponse where
  status : Nat
  binaryDecode : Option (List Char)
  jsonResultMsg : Option (List Char)
deriving DecidableEq

/-- What one HTTP attempt observes: a network-level failure, or a response. -/
inductive HttpOutcome where
  | netError : HttpOutcome
  | ok : HttpResponse → HttpOutcome
deriving DecidableEq

/-- The transport-failure condition (`requests.RequestException`). -/
inductive TransportError where
  | networkError : TransportError
  | httpStatus : Nat → TransportError
deriving DecidableEq

/-- `api_request`: exactly one HTTP attempt; `raise_for_status()` turns any
status `≥ 400` into a raised `HTTPError`.  The second component counts the
attempts consumed. -/
def api_request (attempts : Nat → HttpOutcome) :
    Except TransportError HttpResponse × Nat :=
  match attempts 0 with
  | .netError => (.error .networkError, 1)
  | .ok resp =>
    if 400 ≤ resp.status then (.error (.httpStatus resp.status), 1)
    else (.ok resp, 1)

/-- `fetch_market_data`, given the transport outcome of its single
`api_request` call: a transport failure, a raised `.json()`, or a raised
`int(...)` inside the parser are all caught by the enclosing
`try/except`, which returns `[]`. -/
def fetch_market_data (fmt : Int → String)
    (r : Except TransportError HttpResponse) : List MarketItem :=
  match r with
  | .error _ => []
  | .ok resp =>
    match resp.jsonResultMsg with
    | none => []
    | some msg =>
      match parse_market_data fmt msg with
      | none => []
      | some items => items

/-- `fetch_bidding_info`, given the transport outcome: first try the binary
path (`unpack` then `parse_bidding_info`); if anything in it raises, fall
back to the JSON path (`response.json().get("resultMsg","")` then
`parse_bidding_info`); if that also raises, return `[]`.  A transport
failure is caught by the outer `try/except` and yields `[]`. -/
def fetch_bidding_info (r : Except TransportError HttpResponse) :
    List BiddingLevel :=
  match r with
  | .error _ => []
  | .ok resp =>
    match resp.binaryDecode.bind parse_bidding_info with
    | some levels => levels
    | none =>
      match resp.jsonResultMsg.bind parse_bidding_info with
      | some levels => levels
      | none => []

/-- `fetch_hotlist`: one `api_request`, then `unpack` and the inline hotlist
record loop; any exception anywhere (transport, binary decode, `int(...)`)
is caught by the single enclosing `try/except`, which returns `[]`.  There
is no JSON fallback and no cache.  The second component counts upstream
HTTP attempts issued by this invocation. -/
def fetch_hotlist (fmt : Int → String) (attempts : Nat → HttpOutcome) :
    List HotlistItem × Nat :=
  match api_request attempts with
  | (r, n) =>
    (match r with
     | .error _ => []
     | .ok resp =>
       match resp.binaryDecode.bind (parse_hotlist_payload fmt) with
       | some items => items
       | none => [],
     n)

/-! ## Enhancement resolver (`enh_name` in `app.py`) -/

/-- `CONFIG["ENHANCEMENT_LABELS"]`. -/
def ENHANCEMENT_LABELS : List String :=
  ["", "PRI (I)", "DUO (II)", "TRI (III)", "TET (IV)", "PEN (V)"]

/-- `enh_name(min_e, max_e)`: accessory items (`max_e <= 5`) with
`1 <= min_e <= 5` use the PRI..PEN table directly; standard items use
`+1..+15` and then the table at offset `min_e - 15` for `16..20`;
everything else renders as a range. -/
def enh_name (min_e max_e : Int) : String :=
  let is_accessory := max_e ≤ 5
  if min_e = max_e then
    if min_e = 0 then ""
    else if is_accessory ∧ 1 ≤ min_e ∧ min_e ≤ 5 then
      ENHANCEMENT_LABELS.getD min_e.toNat ""
    else if 1 ≤ min_e ∧ min_e ≤ 15 then "+" ++ toString min_e
    else if 16 ≤ min_e ∧ min_e ≤ 20 then
      ENHANCEMENT_LABELS.getD (min_e - 15).toNat ""
    else toString min_e ++ " to " ++ toString max_e
  else toString min_e ++ " to " ++ toString max_e

/-! ## Aggregator (`get_market_and_bidding`) -/

/-- A market entry with its attached bidding ladder. -/
structure EnrichedMarketItem where
  entry : MarketItem
  bidding_info : List BiddingLevel
deriving DecidableEq

/-- Python `list.sort(key=lambda x: x["price"], reverse=True)` is a stable
sort by price descending; modelled by the stable `List.insertionSort` with
the reflexive descending relation (a stable sort is determined extensionally
by its key and stability, so the choice of stable algorithm is immaterial). -/
def sortBiddingDesc (l : List BiddingLevel) : List BiddingLevel :=
  List.insertionSort (fun a b => b.price ≤ a.price) l

/-- `get_market_and_bidding(item_id, enh_min, enh_max)`, given the transport
outcome of the market call and, for each `subKey` (the entry's
`enhancement_max`), the transport outcome of the bidding call.  Filters when
both bounds are supplied, then attaches a bidding ladder per entry, sorted
descending when nonempty. -/
def get_market_and_bidding (fmt : Int → String)
    (marketResp : Except TransportError HttpResponse)
    (biddingResp : Int → Except TransportError HttpResponse)
    (enhFilter : Option (Int × Int)) : List EnrichedMarketItem :=
  let market_data := fetch_market_data fmt marketResp
  let market_data :=
    match enhFilter with
    | some (mn, mx) =>
      market_data.filter fun (item : MarketItem) =>
        decide (item.enhancement_min = mn ∧ item.enhancement_max = mx)
    | none => market_data
  market_data.map fun (item : MarketItem) =>
    let b := fetch_bidding_info (biddingResp item.enhancement_max)
    { entry := item
      bidding_info := if b = [] then b else sortBiddingDesc b }

/-! ## Garmoth orders cache (`get_orders_from_garmoth_api` in
`bdo_search/app.py`) — the only TTL-memoized fetch in the repository. -/

/-- One extracted order (`sellers, price, buyers = order`). -/
structure GOrder where
  sellers : Int
  price : Int
  buyers : Int
deriving DecidableEq

/-- The decoded Garmoth JSON document: the `"bidding"` list if present (rows
of arbitrary length), and the `"info"` field. -/
structure GData where
  bidding : Option (List (List Int))
  info : Option String
deriving DecidableEq

/-- One `garmoth_cache` entry: `{"data": {"orders", "info"}, "ts": now}`. -/
structure GCacheEntry where
  ts : Nat
  orders : List GOrder
  info : Option String
deriving DecidableEq

/-- Order extraction: keep exactly the length-3 rows of `data["bidding"]`. -/
def extractOrders (d : GData) : List GOrder :=
  match d.bidding with
  | none => []
  | some rows =>
    rows.filterMap fun row =>
      match row with
      | [s, p, b] => some ⟨s, p, b⟩
      | _ => none

/-- The fetch path of `get_orders_from_garmoth_api`: on a raised request
(`upstream = none`) return empty orders and leave the cache untouched; on
success extract the orders and replace the cache entry with timestamp `now`.
The `Bool` records that an upstream call was issued.  (The diagnostic
`fetch_time` field of the Python result dict is presentation-only and not
modelled.) -/
def garmothFetch (cache : Option GCacheEntry) (now : Nat)
    (upstream : Option GData) :
    (List GOrder × Option String) × Option GCacheEntry × Bool :=
  match upstream with
  | none => (([], none), cache, true)
  | some d =>
    let orders := extractOrders d
    ((orders, d.info), some ⟨now, orders, d.info⟩, true)

/-- `get_orders_from_garmoth_api` for one cache key: if a cache entry exists
and `now - entry.ts < cache_time`, return its stored data with no upstream
call; otherwise fetch.  Returns (result, new cache state, whether an
upstream call was issued).  The Python default is `cache_time=10`. -/
def get_orders_from_garmoth_api (cache : Option GCacheEntry) (now : Nat)
    (upstream : Option GData) (cache_time : Nat) :
    (List GOrder × Option String) × Option GCacheEntry × Bool :=
  match cache with
  | some entry =>
    if now - entry.ts < cache_time then ((entry.orders, entry.info), cache, false)
    else garmothFetch cache now upstream
  | none => garmothFetch cache now upstream

/-! ## Hotlist enrichment (`index` / `api_hotlist` route handlers)

`info = item_db.get(str(item["item_id"]), {})`; since `item_id` is already a
string, `str` is the identity and the directory is keyed by the raw first
field.  Only the display name is modelled. -/

/-- `item_db.get(str(item_id), {}).get("name", f"ID {item_id}")`. -/
def lookup_name (db : List (List Char × String)) (item_id : List Char) : String :=
  match db.find? (fun p => decide (p.1 = item_id)) with
  | some p => p.2
  | none => "ID " ++ String.mk item_id

/-- The enrichment loop of `index`/`api_hotlist`, restricted to the name. -/
def hotlist_with_names (db : List (List Char × String))
    (items : List HotlistItem) : List (HotlistItem × String) :=
  items.map fun it => (it, lookup_name db it.item_id)

/-! ## Renderers used to state the round-trip property (claim C6): records
of decimal fields joined with `-`, records joined with `|`, with a leading
and trailing `|`. -/

/-- One record of natural-number fields, `-`-joined. -/
def renderRecordN (r : List Nat) : List Char :=
  List.intercalate ['-'] (r.map natChars)

/-- A batch of records, `|`-joined with leading and trailing `|`. -/
def renderBatchN (recs : List (List Nat)) : List Char :=
  '|' :: List.intercalate ['|'] (recs.map renderRecordN) ++ ['|']

/-- One record of integer fields, `-`-joined (signed decimal rendering). -/
def renderRecordZ (r : List Int) : List Char :=
  List.intercalate ['-'] (r.map intChars)

/-- A batch of integer records, `|`-joined with leading and trailing `|`. -/
def renderBatchZ (recs : List (List Int)) : List Char :=
  '|' :: List.intercalate ['|'] (recs.map renderRecordZ) ++ ['|']

/-! ## Helper lemmas -/

theorem natChars_digit {n : Nat} {c : Char} (h : c ∈ natChars n) :
    c ≠ '-' ∧ c ≠ '|' := by
  rcases mem_natChars h with ⟨d, _, rfl⟩
  rcases digitChar_not_sign d with ⟨h1, _, h3⟩
  exact ⟨h1, h3⟩

theorem parseFields_map_natChars (r : List Nat) :
    parseFields (r.map natChars) = some (r.map Int.ofNat) := by
  induction r with
  | nil => rfl
  | cons n ns ih =>
    simp only [List.map_cons, parseFields, pyInt_natChars, ih]
    rfl

theorem parseFields_getD {l : List (List Char)} {ns : List Int}
    (h : parseFields l = some ns) :
    ∀ i, i < l.length → pyInt (l.getD i []) = some (ns.getD i 0) := by
  induction l generalizing ns with
  | nil => intro i hi; simp at hi
  | cons v vs ih =>
    intro i hi
    rw [parseFields] at h
    rcases hv : pyInt v with _ | n <;> rw [hv] at h
    · exact absurd h (by simp)
    · rcases hvs : parseFields vs with _ | ns' <;> rw [hvs] at h
      · exact absurd h (by simp)
      · rcases Option.some.inj h with rfl
        cases i with
        | zero => simpa using hv
        | succ j =>
          simpa using ih hvs j (by simpa using hi)

theorem intercalate_cons_of_ne_nil (sep y : List Char) {l : List (List Char)}
    (h : l ≠ []) :
    List.intercalate sep (y :: l) = y ++ sep ++ List.intercalate sep l := by
  cases l with
  | nil => exact absurd rfl h
  | cons z zs =>
    simp [List.intercalate, List.intersperse]

theorem intercalate_head_decomp (sep x : List Char) (xs : List (List Char)) :
    ∃ s, List.intercalate sep (x :: xs) = x ++ s := by
  cases xs with
  | nil => exact ⟨[], by simp [List.intercalate]⟩
  | cons y ys =>
    exact ⟨sep ++ List.intercalate sep (y :: ys),
      by rw [intercalate_cons_of_ne_nil sep x (by simp), List.append_assoc]⟩

theorem intercalate_last_decomp (sep : List Char) (xs : List (List Char))
    (x : List Char) :
    ∃ s, List.intercalate sep (xs ++ [x]) = s ++ x := by
  induction xs with
  | nil => exact ⟨[], by simp [List.intercalate]⟩
  | cons y ys ih =>
    rcases ih with ⟨s, hs⟩
    refine ⟨y ++ sep ++ s, ?_⟩
    rw [List.cons_append, intercalate_cons_of_ne_nil sep y (by simp), hs,
      List.append_assoc, List.append_assoc, List.append_assoc]

/-- Stripping the outer separators of a rendered batch and splitting on the
outer separator recovers exactly the rendered records. -/
theorem stripSplit_render (parts : List (List Char))
    (hne : ∀ p ∈ parts, p ≠ []) (hnp : ∀ p ∈ parts, '|' ∉ p) :
    (pyStrip '|' ('|' :: (List.intercalate ['|'] parts ++ ['|']))).splitOn '|'
      = if parts = [] then [[]] else parts := by
  rw [show ('|' :: (List.intercalate ['|'] parts ++ ['|']))
        = '|' :: List.intercalate ['|'] parts ++ ['|'] by simp,
    show ('|' :: List.intercalate ['|'] parts ++ ['|'])
        = ('|' :: List.intercalate ['|'] parts) ++ ['|'] by simp,
    pyStrip_append_sep, pyStrip_cons_sep]
  rcases hp : parts with _ | ⟨p₀, rest⟩
  · simp [pyStrip, List.intercalate]
  · rw [if_neg (by simp)]
    have hp₀ : p₀ ∈ parts := by rw [hp]; exact List.mem_cons_self _ _
    have hp₀ne : p₀ ≠ [] := hne _ hp₀
    have hstrip : pyStrip '|' (List.intercalate ['|'] (p₀ :: rest))
        = List.intercalate ['|'] (p₀ :: rest) := by
      apply pyStrip_eq_self
      · rcases intercalate_head_decomp ['|'] p₀ rest with ⟨s, hs⟩
        rw [hs, List.head?_append_of_ne_nil _ hp₀ne]
        rcases hh : p₀.head? with _ | c
        · simp
        · have hc : c ∈ p₀ := List.mem_of_mem_head? hh
          intro hcontra
          rcases Option.some.inj hcontra with rfl
          exact hnp _ hp₀ hc
      · rcases List.eq_nil_or_concat rest with rfl | ⟨ys, y, rfl⟩
        · rw [show List.intercalate ['|'] [p₀] = p₀ by simp [List.intercalate]]
          rcases hh : p₀.getLast? with _ | c
          · simp
          · have hc : c ∈ p₀ := List.mem_of_mem_getLast? hh
            intro hcontra
            rcases Option.some.inj hcontra with rfl
            exact hnp _ hp₀ hc
        · simp only [List.concat_eq_append]
          have hy : y ∈ parts := by rw [hp]; simp
          have hyne : y ≠ [] := hne _ hy
          rcases intercalate_last_decomp ['|'] (p₀ :: ys) y with ⟨s, hs⟩
          rw [show p₀ :: (ys ++ [y]) = (p₀ :: ys) ++ [y] by simp, hs,
            List.getLast?_append_of_ne_nil _ hyne]
          rcases hh : y.getLast? with _ | c
          · simp
          · have hc : c ∈ y := List.mem_of_mem_getLast? hh
            intro hcontra
            rcases Option.some.inj hcontra with rfl
            exact hnp _ hy hc
    rw [hstrip]
    exact List.splitOn_intercalate (p₀ :: rest) '|'
      (fun l hl => hnp l (hp ▸ hl)) (by simp)

theorem filter_orderedInsert_neg {q : BiddingLevel → Bool}
    {r : BiddingLevel → BiddingLevel → Prop} [DecidableRel r]
    {a : BiddingLevel} (ha : q a = false) (l : List BiddingLevel) :
    (List.orderedInsert r a l).filter q = l.filter q := by
  induction l with
  | nil => simp [List.orderedInsert, ha]
  | cons b bs ih =>
    rw [List.orderedInsert]
    by_cases hr : r a b
    · rw [if_pos hr, List.filter_cons, ha]
      simp
    · rw [if_neg hr, List.filter_cons, List.filter_cons]
      cases q b <;> simp [ih]

theorem filter_orderedInsert_pos {q : BiddingLevel → Bool}
    {r : BiddingLevel → BiddingLevel → Prop} [DecidableRel r]
    {a : BiddingLevel} (ha : q a = true)
    (hq : ∀ b, q b = true → r a b) (l : List BiddingLevel) :
    (List.orderedInsert r a l).filter q = a :: l.filter q := by
  induction l with
  | nil => simp [List.orderedInsert, ha]
  | cons b bs ih =>
    rw [List.orderedInsert]
    by_cases hr : r a b
    · rw [if_pos hr, List.filter_cons, ha]
      simp
    · have hb : q b = false := by
        cases hqb : q b
        · rfl
        · exact absurd (hq b hqb) hr
      rw [if_neg hr]
      simp only [List.filter_cons, hb]
      simpa using ih

/-- Stability of the descending bidding sort: the sublist of levels at any
fixed price is unchanged by sorting. -/
theorem filter_sortBiddingDesc (l : List BiddingLevel) (p : Int) :
    (sortBiddingDesc l).filter (fun x => decide (x.price = p))
      = l.filter (fun x => decide (x.price = p)) := by
  induction l with
  | nil => rfl
  | cons a as ih =>
    rw [sortBiddingDesc, List.insertionSort]
    by_cases ha : a.price = p
    · rw [filter_orderedInsert_pos (by simpa using ha)
        (fun b hb => by
          have hbp : b.price = p := by simpa using hb
          simp [hbp, ha]),
        List.filter_cons]
      rw [sortBiddingDesc] at ih
      simp [ha, ih]
    · rw [filter_orderedInsert_neg (by simpa using ha), List.filter_cons]
      rw [sortBiddingDesc] at ih
      simp [ha, ih]

theorem sortBiddingDesc_sorted (l : List BiddingLevel) :
    (sortBiddingDesc l).Pairwise (fun a b => b.price ≤ a.price) := by
  haveI : IsTotal BiddingLevel (fun a b => b.price ≤ a.price) :=
    ⟨fun a b => le_total b.price a.price⟩
  haveI : IsTrans BiddingLevel (fun a b => b.price ≤ a.price) :=
    ⟨fun _ _ _ h1 h2 => le_trans h2 h1⟩
  exact List.sorted_insertionSort _ l

/-! ### Record-level batch lemmas -/

theorem parseMarketRecords_skip (fmt : Int → String) (l₁ l₂ : List (List Char))
    {e : List Char} (he : (e.splitOn '-').length ≠ 10) :
    parseMarketRecords fmt (l₁ ++ e :: l₂) = parseMarketRecords fmt (l₁ ++ l₂) := by
  induction l₁ with
  | nil => simp [parseMarketRecords, he]
  | cons a as ih =>
    simp only [List.cons_append, parseMarketRecords, List.append_eq]
    rw [ih]

theorem parseBiddingRecords_skip (l₁ l₂ : List (List Char))
    {e : List Char} (he : (e.splitOn '-').length ≠ 3) :
    parseBiddingRecords (l₁ ++ e :: l₂) = parseBiddingRecords (l₁ ++ l₂) := by
  induction l₁ with
  | nil => simp [parseBiddingRecords, he]
  | cons a as ih =>
    simp only [List.cons_append, parseBiddingRecords, List.append_eq]
    rw [ih]

theorem parseHotlistRecords_skip (fmt : Int → String) (l₁ l₂ : List (List Char))
    {e : List Char} (he : (e.splitOn '-').length ≠ 12) :
    parseHotlistRecords fmt (l₁ ++ e :: l₂) = parseHotlistRecords fmt (l₁ ++ l₂) := by
  induction l₁ with
  | nil => simp [parseHotlistRecords, he]
  | cons a as ih =>
    simp only [List.cons_append, parseHotlistRecords, List.append_eq]
    rw [ih]

theorem parseMarketRecords_abort (fmt : Int → String) (l₁ l₂ : List (List Char))
    {e : List Char} (h10 : (e.splitOn '-').length = 10)
    (hf : parseFields (e.splitOn '-') = none) :
    parseMarketRecords fmt (l₁ ++ e :: l₂) = none := by
  induction l₁ with
  | nil => simp [parseMarketRecords, h10, hf]
  | cons a as ih =>
    simp only [List.cons_append, parseMarketRecords, List.append_eq]
    rw [ih]
    split
    · rcases hp : parseFields (a.splitOn '-') with _ | fs <;> simp [hp]
    · rfl

theorem parseBiddingRecords_abort (l₁ l₂ : List (List Char))
    {e : List Char} (h3 : (e.splitOn '-').length = 3)
    (hf : parseFields (e.splitOn '-') = none) :
    parseBiddingRecords (l₁ ++ e :: l₂) = none := by
  induction l₁ with
  | nil => simp [parseBiddingRecords, h3, hf]
  | cons a as ih =>
    simp only [List.cons_append, parseBiddingRecords, List.append_eq]
    rw [ih]
    split
    · rcases hp : parseFields (a.splitOn '-') with _ | fs <;> simp [hp]
    · rfl

theorem parseHotlistRecords_abort (fmt : Int → String) (l₁ l₂ : List (List Char))
    {e : List Char} (h12 : (e.splitOn '-').length = 12)
    (hf : parseFields ((e.splitOn '-').tail) = none) :
    parseHotlistRecords fmt (l₁ ++ e :: l₂) = none := by
  induction l₁ with
  | nil => simp [parseHotlistRecords, h12, parseHotlistRecord, hf]
  | cons a as ih =>
    simp only [List.cons_append, parseHotlistRecords, List.append_eq]
    rw [ih]
    split
    · rcases hp : parseHotlistRecord fmt (a.splitOn '-') with _ | it <;> simp [hp]
    · rfl

theorem parseMarketRecords_render (fmt : Int → String) (recs : List (List Nat))
    (hlen : ∀ r ∈ recs, r.length = 10) :
    parseMarketRecords fmt (recs.map renderRecordN)
      = some (recs.map fun r => mkMarketItem fmt (r.map Int.ofNat)) := by
  induction recs with
  | nil => rfl
  | cons r rs ih =>
    have hr : r.length = 10 := hlen r (List.mem_cons_self _ _)
    have hrne : r ≠ [] := by intro h; rw [h] at hr; simp at hr
    have hsplit : (renderRecordN r).splitOn '-' = r.map natChars := by
      rw [renderRecordN]
      exact List.splitOn_intercalate (r.map natChars) '-'
        (fun l hl => by
          rcases List.mem_map.mp hl with ⟨n, _, rfl⟩
          intro hc
          exact (natChars_digit hc).1 rfl)
        (by simpa using hrne)
    simp only [List.map_cons, parseMarketRecords, hsplit]
    rw [if_pos (by simp [hr]), parseFields_map_natChars,
      ih (fun x hx => hlen x (List.mem_cons_of_mem _ hx))]
    rfl

theorem mem_intersperse {β : Type} {x sep : β} :
    ∀ {ls : List β}, x ∈ List.intersperse sep ls → x = sep ∨ x ∈ ls := by
  intro ls
  induction ls with
  | nil => intro h; simp at h
  | cons a t ih =>
    cases t with
    | nil =>
      intro h
      rcases List.mem_singleton.mp h with rfl
      exact Or.inr (List.mem_cons_self _ _)
    | cons b u =>
      intro h
      rw [show List.intersperse sep (a :: b :: u)
          = a :: sep :: List.intersperse sep (b :: u) from rfl] at h
      rcases List.mem_cons.mp h with rfl | h
      · exact Or.inr (List.mem_cons_self _ _)
      · rcases List.mem_cons.mp h with rfl | h
        · exact Or.inl rfl
        · rcases ih h with h' | h'
          · exact Or.inl h'
          · exact Or.inr (List.mem_cons_of_mem _ h')

theorem getD_map_ofNat : ∀ (r : List Nat) (i : Nat),
    (r.map Int.ofNat).getD i 0 = Int.ofNat (r.getD i 0)
  | [], _ => by simp [List.getD]
  | _ :: _, 0 => rfl
  | _ :: ns, i + 1 => by
    simpa [List.getD_cons_succ] using getD_map_ofNat ns i

/-! ## Claim theorems -/

/-- C1 counterexample: the claim says `label(min,max) = "+min"` for every
`min = max` with `1 ≤ min ≤ 15`, regardless of whether `max ≤ 5`; but
`enh_name 5 5` takes the accessory branch (`max_e ≤ 5`) and returns
`"PEN (V)"`, not `"+5"`. -/
theorem C1_counterexample :
    enh_name 5 5 = "PEN (V)" ∧ enh_name 5 5 ≠ "+5" := by
  constructor <;> decide

/-- C1 (amended): for `min = max` with `1 ≤ min ≤ 15`, `enh_name` returns
`"+min"` only when `min ≥ 6`; for `min ≤ 5` the accessory test `max_e ≤ 5`
fires and the PRI..PEN label at index `min` is returned instead. -/
theorem C1_enh_name_plus_range (n : Int) (h1 : 1 ≤ n) (h2 : n ≤ 15) :
    enh_name n n =
      if n ≤ 5 then ENHANCEMENT_LABELS.getD n.toNat "" else "+" ++ toString n := by
  simp only [enh_name]
  by_cases h5 : n ≤ 5
  · rw [if_pos trivial, if_neg (by omega), if_pos ⟨h5, h1, h5⟩, if_pos h5]
  · rw [if_pos trivial, if_neg (by omega), if_neg (fun hc => h5 hc.1),
      if_pos ⟨h1, h2⟩, if_neg h5]

/-- C1 witness: instantiation at `n = 7`, where the amended rule gives `"+7"`. -/
theorem C1_enh_name_plus_range_witness :
    (1 : Int) ≤ 7 ∧ (7 : Int) ≤ 15 ∧
      enh_name 7 7 =
        (if (7 : Int) ≤ 5 then ENHANCEMENT_LABELS.getD (7 : Int).toNat ""
         else "+" ++ toString (7 : Int)) :=
  ⟨by decide, by decide, C1_enh_name_plus_range 7 (by decide) (by decide)⟩

/-- C2 counterexample: a batch holding one well-formed record and one record
with a non-integer field; the claim says only the bad record is skipped and
the good record is still returned, but the parser aborts the whole batch
(`none`, the raised `ValueError`) and the enclosing fetch returns `[]`; the
good record alone would have parsed. -/
theorem C2_counterexample :
    parse_market_data (fun _ => "-")
        ("|1-2-3-4-5-6-7-8-9-10|x-2-3-4-5-6-7-8-9-10|".toList) = none ∧
    fetch_market_data (fun _ => "-")
        (.ok ⟨200, none, some ("|1-2-3-4-5-6-7-8-9-10|x-2-3-4-5-6-7-8-9-10|".toList)⟩)
      = [] ∧
    parse_market_data (fun _ => "-") ("|1-2-3-4-5-6-7-8-9-10|".toList)
      = some [⟨1, 2, 3, 4, 5, 6, 7, 8, 9, 10, "-"⟩] := by
  refine ⟨by decide, by decide, by decide⟩

/-- C2 (amended): an integer-parse failure on an arity-correct record aborts
the entire batch in all three record loops (market, bidding, hotlist) — the
loop raises, every sibling record is lost, and the enclosing fetch catches
the exception and returns the empty list: `fetch_market_data` on a failed
market parse, `fetch_bidding_info` once both the binary and the JSON path
have failed, and `fetch_hotlist` on a failed parse of the decoded payload. -/
theorem C2_parse_failure_aborts_batch :
    (∀ (fmt : Int → String) (l₁ l₂ : List (List Char)) (e : List Char),
      (e.splitOn '-').length = 10 → parseFields (e.splitOn '-') = none →
        parseMarketRecords fmt (l₁ ++ e :: l₂) = none) ∧
    (∀ (l₁ l₂ : List (List Char)) (e : List Char),
      (e.splitOn '-').length = 3 → parseFields (e.splitOn '-') = none →
        parseBiddingRecords (l₁ ++ e :: l₂) = none) ∧
    (∀ (fmt : Int → String) (l₁ l₂ : List (List Char)) (e : List Char),
      (e.splitOn '-').length = 12 → parseFields ((e.splitOn '-').tail) = none →
        parseHotlistRecords fmt (l₁ ++ e :: l₂) = none) ∧
    (∀ (fmt : Int → String) (resp : HttpResponse) (msg : List Char),
      resp.jsonResultMsg = some msg → parse_market_data fmt msg = none →
        fetch_market_data fmt (.ok resp) = []) ∧
    (∀ resp : HttpResponse,
      resp.binaryDecode.bind parse_bidding_info = none →
      resp.jsonResultMsg.bind parse_bidding_info = none →
        fetch_bidding_info (.ok resp) = []) ∧
    (∀ (fmt : Int → String) (attempts : Nat → HttpOutcome) (resp : HttpResponse)
        (d : List Char),
      attempts 0 = .ok resp → resp.status < 400 → resp.binaryDecode = some d →
      parse_hotlist_payload fmt d = none →
        (fetch_hotlist fmt attempts).1 = []) :=
  ⟨fun fmt l₁ l₂ _ h10 hf => parseMarketRecords_abort fmt l₁ l₂ h10 hf,
   fun l₁ l₂ _ h3 hf => parseBiddingRecords_abort l₁ l₂ h3 hf,
   fun fmt l₁ l₂ _ h12 hf => parseHotlistRecords_abort fmt l₁ l₂ h12 hf,
   fun fmt resp msg hm hp => by simp [fetch_market_data, hm, hp],
   fun resp h1 h2 => by simp [fetch_bidding_info, h1, h2],
   fun fmt attempts resp d h hs hb hp => by
     simp [fetch_hotlist, api_request, h,
       if_neg (by omega : ¬ 400 ≤ resp.status), hb, hp]⟩

/-- C2 witness: the market-parser, hotlist-parser and hotlist-fetch branches
of the amended claim at concrete batches with one good and one bad record. -/
theorem C2_parse_failure_aborts_batch_witness :
    ((("x-2-3-4-5-6-7-8-9-10".toList).splitOn '-').length = 10 ∧
     parseFields (("x-2-3-4-5-6-7-8-9-10".toList).splitOn '-') = none) ∧
    parseMarketRecords (fun _ => "-")
      ([("1-2-3-4-5-6-7-8-9-10".toList)] ++ ("x-2-3-4-5-6-7-8-9-10".toList) :: [])
      = none ∧
    ((("77-1-2-3-4-5-6-7-8-9-10-y".toList).splitOn '-').length = 12 ∧
     parseFields ((("77-1-2-3-4-5-6-7-8-9-10-y".toList).splitOn '-').tail) = none) ∧
    parseHotlistRecords (fun _ => "-")
      ([("88-1-2-3-4-5-6-7-8-9-10-11".toList)]
        ++ ("77-1-2-3-4-5-6-7-8-9-10-y".toList) :: [])
      = none ∧
    (fetch_hotlist (fun _ => "-")
        (fun _ => .ok ⟨200,
          some ("|88-1-2-3-4-5-6-7-8-9-10-11|77-1-2-3-4-5-6-7-8-9-10-y|".toList),
          none⟩)).1
      = [] :=
  ⟨⟨by decide, by decide⟩,
   C2_parse_failure_aborts_batch.1 _ _ _ _ (by decide) (by decide),
   ⟨by decide, by decide⟩,
   C2_parse_failure_aborts_batch.2.2.1 _ _ _ _ (by decide) (by decide),
   C2_parse_failure_aborts_batch.2.2.2.2.2 _ _ _ _ rfl (by decide) rfl (by decide)⟩

/-- C4 counterexample: the first attempt observes a 500 status and a second
attempt would succeed; the claim says the transport retries up to 3 attempts
with backoff before raising, but `api_request` raises after consuming
exactly one attempt. -/
theorem C4_counterexample :
    (api_request (fun n => if n = 0 then .ok ⟨500, none, none⟩
        else .ok ⟨200, none, some []⟩)).1 = .error (.httpStatus 500) ∧
    (api_request (fun n => if n = 0 then .ok ⟨500, none, none⟩
        else .ok ⟨200, none, some []⟩)).2 = 1 ∧
    (fun n => if n = 0 then HttpOutcome.ok ⟨500, none, none⟩
        else HttpOutcome.ok ⟨200, none, some []⟩) 1
      = .ok ⟨200, none, some []⟩ := by
  refine ⟨rfl, rfl, rfl⟩

/-- C4 (amended): `api_request` issues exactly one HTTP attempt per call and
raises immediately on a network failure or on any status `≥ 400` (including
429 and 5xx); there is no retry and no backoff. -/
theorem C4_api_request_single_attempt (attempts : Nat → HttpOutcome) :
    (api_request attempts).2 = 1 ∧
    (attempts 0 = .netError → (api_request attempts).1 = .error .networkError) ∧
    (∀ resp : HttpResponse, attempts 0 = .ok resp →
      (400 ≤ resp.status → (api_request attempts).1 = .error (.httpStatus resp.status)) ∧
      (resp.status < 400 → (api_request attempts).1 = .ok resp)) := by
  refine ⟨?_, ?_, ?_⟩
  · rcases h : attempts 0 with _ | resp
    · simp [api_request, h]
    · by_cases hs : 400 ≤ resp.status <;> simp [api_request, h, hs]
  · intro h
    simp [api_request, h]
  · intro resp h
    refine ⟨fun hs => ?_, fun hs => ?_⟩
    · simp [api_request, h, hs]
    · simp [api_request, h, if_neg (by omega : ¬ 400 ≤ resp.status)]

/-- C4 witness: a 500 response makes the single attempt raise at once. -/
theorem C4_api_request_single_attempt_witness :
    ((fun _ => HttpOutcome.ok ⟨500, none, none⟩) 0
        = HttpOutcome.ok ⟨(500 : Nat), none, none⟩) ∧
    (api_request (fun _ => HttpOutcome.ok ⟨500, none, none⟩)).2 = 1 ∧
    (api_request (fun _ => HttpOutcome.ok ⟨500, none, none⟩)).1
      = .error (.httpStatus 500) :=
  ⟨rfl, (C4_api_request_single_attempt _).1,
   ((C4_api_request_single_attempt _).2.2 _ rfl).1 (by decide)⟩

/-- C9: each parser silently drops a record whose field count differs from
its expected arity (10 for market, 3 for bidding, 12 for hotlist): the
batch parses exactly as if the malformed record were absent, so sibling
records and their values are unaffected and nothing is raised. -/
theorem C9_arity_mismatch_skipped :
    (∀ (fmt : Int → String) (l₁ l₂ : List (List Char)) (e : List Char),
      (e.splitOn '-').length ≠ 10 →
        parseMarketRecords fmt (l₁ ++ e :: l₂) = parseMarketRecords fmt (l₁ ++ l₂)) ∧
    (∀ (l₁ l₂ : List (List Char)) (e : List Char),
      (e.splitOn '-').length ≠ 3 →
        parseBiddingRecords (l₁ ++ e :: l₂) = parseBiddingRecords (l₁ ++ l₂)) ∧
    (∀ (fmt : Int → String) (l₁ l₂ : List (List Char)) (e : List Char),
      (e.splitOn '-').length ≠ 12 →
        parseHotlistRecords fmt (l₁ ++ e :: l₂) = parseHotlistRecords fmt (l₁ ++ l₂)) :=
  ⟨fun fmt l₁ l₂ _ he => parseMarketRecords_skip fmt l₁ l₂ he,
   fun l₁ l₂ _ he => parseBiddingRecords_skip l₁ l₂ he,
   fun fmt l₁ l₂ _ he => parseHotlistRecords_skip fmt l₁ l₂ he⟩

/-- C9 witness: inserting a 2-field record between two good market records
leaves the parse of the siblings unchanged. -/
theorem C9_arity_mismatch_skipped_witness :
    ((("1-2".toList).splitOn '-').length ≠ 10) ∧
    parseMarketRecords (fun _ => "-")
        ([("1-2-3-4-5-6-7-8-9-10".toList)] ++ ("1-2".toList) :: [("9-8-7-6-5-4-3-2-1-0".toList)])
      = parseMarketRecords (fun _ => "-")
        ([("1-2-3-4-5-6-7-8-9-10".toList)] ++ [("9-8-7-6-5-4-3-2-1-0".toList)]) :=
  ⟨by decide, C9_arity_mismatch_skipped.1 _ _ _ _ (by decide)⟩

/-- C6 counterexample: the claim quantifies over records of ten *integer*
fields, but a negative field renders with a `'-'` sign that collides with
the inner field separator: the rendered record splits into 11 fields, is
dropped by the arity check, and the parser returns zero entries for a
one-record batch. -/
theorem C6_counterexample :
    renderBatchZ [[-1, 2, 3, 4, 5, 6, 7, 8, 9, 10]] =
      ['|', '-', '1', '-', '2', '-', '3', '-', '4', '-', '5', '-', '6', '-',
       '7', '-', '8', '-', '9', '-', '1', '0', '|'] ∧
    parse_market_data (fun _ => "-") (renderBatchZ [[-1, 2, 3, 4, 5, 6, 7, 8, 9, 10]])
      = some [] ∧
    ([[-1, 2, 3, 4, 5, 6, 7, 8, 9, 10]] : List (List Int)).length = 1 := by
  have h : renderBatchZ [[-1, 2, 3, 4, 5, 6, 7, 8, 9, 10]] =
      ['|', '-', '1', '-', '2', '-', '3', '-', '4', '-', '5', '-', '6', '-',
       '7', '-', '8', '-', '9', '-', '1', '0', '|'] := by
    simp [renderBatchZ, renderRecordZ, intChars, natChars, digitChar, List.intercalate]
  refine ⟨h, ?_, rfl⟩
  rw [h]
  decide

/-- C6 (amended): for every sequence of records of ten *nonnegative* integer
fields, `-`-joined within a record and `|`-joined with a leading and
trailing `|`, the market parser returns one entry per record whose ten named
fields equal the original integers in positional order, plus the derived
localized timestamp string computed from `last_sale_time`. -/
theorem C6_market_roundtrip (fmt : Int → String) (recs : List (List Nat))
    (hlen : ∀ r ∈ recs, r.length = 10) :
    parse_market_data fmt (renderBatchN recs) =
      some (recs.map fun r =>
        { item_id := (r.getD 0 0 : Nat)
          enhancement_min := (r.getD 1 0 : Nat)
          enhancement_max := (r.getD 2 0 : Nat)
          base_price := (r.getD 3 0 : Nat)
          current_stock := (r.getD 4 0 : Nat)
          total_trades := (r.getD 5 0 : Nat)
          price_hardcap_min := (r.getD 6 0 : Nat)
          price_hardcap_max := (r.getD 7 0 : Nat)
          last_sale_price := (r.getD 8 0 : Nat)
          last_sale_time := (r.getD 9 0 : Nat)
          last_sale_time_ro := fmt ((r.getD 9 0 : Nat) : Int) }) := by
  have h1 : ∀ p ∈ recs.map renderRecordN, p ≠ [] := by
    intro p hp
    rcases List.mem_map.mp hp with ⟨r, hr, rfl⟩
    have hrlen := hlen r hr
    cases r with
    | nil => simp at hrlen
    | cons n ns =>
      rw [renderRecordN, List.map_cons]
      rcases intercalate_head_decomp ['-'] (natChars n) (ns.map natChars) with ⟨s, hs⟩
      rw [hs]
      intro hcontra
      exact natChars_ne_nil n (List.append_eq_nil.mp hcontra).1
  have h2 : ∀ p ∈ recs.map renderRecordN, '|' ∉ p := by
    intro p hp hc
    rcases List.mem_map.mp hp with ⟨r, _, rfl⟩
    rw [renderRecordN, List.intercalate] at hc
    rcases List.mem_flatten.mp hc with ⟨l, hl, hcl⟩
    rcases mem_intersperse hl with rfl | hl'
    · simp at hcl
    · rcases List.mem_map.mp hl' with ⟨n, _, rfl⟩
      exact (natChars_digit hcl).2 rfl
  have hmk : ∀ r ∈ recs, mkMarketItem fmt (r.map Int.ofNat) =
      ({ item_id := (r.getD 0 0 : Nat)
         enhancement_min := (r.getD 1 0 : Nat)
         enhancement_max := (r.getD 2 0 : Nat)
         base_price := (r.getD 3 0 : Nat)
         current_stock := (r.getD 4 0 : Nat)
         total_trades := (r.getD 5 0 : Nat)
         price_hardcap_min := (r.getD 6 0 : Nat)
         price_hardcap_max := (r.getD 7 0 : Nat)
         last_sale_price := (r.getD 8 0 : Nat)
         last_sale_time := (r.getD 9 0 : Nat)
         last_sale_time_ro := fmt ((r.getD 9 0 : Nat) : Int) } : MarketItem) := by
    intro r _
    simp only [mkMarketItem, getD_map_ofNat]
    rfl
  rw [renderBatchN, parse_market_data, if_neg (by simp)]
  rw [show '|' :: List.intercalate ['|'] (recs.map renderRecordN) ++ ['|']
      = '|' :: (List.intercalate ['|'] (recs.map renderRecordN) ++ ['|']) by simp]
  rw [stripSplit_render (recs.map renderRecordN) h1 h2]
  cases recs with
  | nil => rfl
  | cons r₀ rest =>
    rw [if_neg (by simp), parseMarketRecords_render fmt (r₀ :: rest) hlen]
    rw [List.map_congr_left (fun r hr => hmk r hr)]

/-- C6 witness: one concrete record of ten nonnegative fields round-trips. -/
theorem C6_market_roundtrip_witness :
    (∀ r ∈ [[(1 : Nat), 2, 3, 4, 5, 6, 7, 8, 9, 10]], List.length r = 10) ∧
    parse_market_data (fun _ => "-") (renderBatchN [[1, 2, 3, 4, 5, 6, 7, 8, 9, 10]]) =
      some ([[(1 : Nat), 2, 3, 4, 5, 6, 7, 8, 9, 10]].map fun r =>
        { item_id := (r.getD 0 0 : Nat)
          enhancement_min := (r.getD 1 0 : Nat)
          enhancement_max := (r.getD 2 0 : Nat)
          base_price := (r.getD 3 0 : Nat)
          current_stock := (r.getD 4 0 : Nat)
          total_trades := (r.getD 5 0 : Nat)
          price_hardcap_min := (r.getD 6 0 : Nat)
          price_hardcap_max := (r.getD 7 0 : Nat)
          last_sale_price := (r.getD 8 0 : Nat)
          last_sale_time := (r.getD 9 0 : Nat)
          last_sale_time_ro := (fun _ => "-") ((r.getD 9 0 : Nat) : Int) }) :=
  ⟨by decide, C6_market_roundtrip (fun _ => "-") _ (by decide)⟩

/-- C5 counterexample: the claim says the binary-then-JSON fallback applies
to every decoded endpoint including the hotlist fetch; but for a response
whose binary decode fails while its JSON body carries a perfectly valid
hotlist payload, `fetch_hotlist` returns `[]` (no fallback) while
`fetch_bidding_info` on the same failure shape does fall back and parse. -/
theorem C5_counterexample :
    (fetch_hotlist (fun _ => "-")
        (fun _ => .ok ⟨200, none, some ("|77-1-2-3-4-5-6-7-8-9-10-11|".toList)⟩)).1
      = [] ∧
    parse_hotlist_payload (fun _ => "-") ("|77-1-2-3-4-5-6-7-8-9-10-11|".toList)
      = some [⟨"77".toList, 1, 2, 3, 4, 5, 6, 7, 8, 9, 10, 11, "-"⟩] ∧
    fetch_bidding_info (.ok ⟨200, none, some ("1-2-3".toList)⟩) = [⟨1, 2, 3⟩] := by
  refine ⟨by decide, by decide, by decide⟩

/-- C5 (amended): the binary-then-JSON fallback exists only in the
bidding-info fetch, where a failed binary path followed by a successful JSON
path yields exactly the records of the direct JSON path; the hotlist fetch
has no JSON fallback — a binary decode failure there yields `[]` regardless
of the JSON body. -/
theorem C5_decode_fallback :
    (∀ (resp : HttpResponse) (m : List Char) (levels : List BiddingLevel),
      resp.binaryDecode.bind parse_bidding_info = none →
      resp.jsonResultMsg = some m → parse_bidding_info m = some levels →
      fetch_bidding_info (.ok resp) = levels) ∧
    (∀ (fmt : Int → String) (attempts : Nat → HttpOutcome) (resp : HttpResponse),
      attempts 0 = .ok resp → resp.status < 400 → resp.binaryDecode = none →
      (fetch_hotlist fmt attempts).1 = []) := by
  constructor
  · intro resp m levels hb hj hp
    simp [fetch_bidding_info, hb, hj, hp]
  · intro fmt attempts resp h hs hb
    simp [fetch_hotlist, api_request, h, if_neg (by omega : ¬ 400 ≤ resp.status), hb]

/-- C5 witness: both conjuncts at a concrete failed-binary response. -/
theorem C5_decode_fallback_witness :
    ((HttpResponse.mk 200 none (some ("1-2-3".toList))).binaryDecode.bind
        parse_bidding_info = none ∧
     (HttpResponse.mk 200 none (some ("1-2-3".toList))).jsonResultMsg
        = some ("1-2-3".toList) ∧
     parse_bidding_info ("1-2-3".toList) = some [⟨1, 2, 3⟩]) ∧
    fetch_bidding_info (.ok ⟨200, none, some ("1-2-3".toList)⟩) = [⟨1, 2, 3⟩] :=
  ⟨⟨by decide, rfl, by decide⟩,
   C5_decode_fallback.1 _ _ _ (by decide) rfl (by decide)⟩

/-- C3 counterexample: `fetch_hotlist` is not memoized at all — two
invocations (any time window) each issue one upstream call, two in total
where the claim requires exactly one, and the second invocation returns a
fresh decode of the current upstream response rather than any stored
sequence (the two calls return different data). -/
theorem C3_counterexample :
    (fetch_hotlist (fun _ => "-")
        (fun _ => .ok ⟨200, some ("|77-1-2-3-4-5-6-7-8-9-10-11|".toList), none⟩)).2
      + (fetch_hotlist (fun _ => "-")
        (fun _ => .ok ⟨200, some ("|88-1-2-3-4-5-6-7-8-9-10-11|".toList), none⟩)).2
      = 2 ∧
    (fetch_hotlist (fun _ => "-")
        (fun _ => .ok ⟨200, some ("|77-1-2-3-4-5-6-7-8-9-10-11|".toList), none⟩)).1
      ≠ (fetch_hotlist (fun _ => "-")
        (fun _ => .ok ⟨200, some ("|88-1-2-3-4-5-6-7-8-9-10-11|".toList), none⟩)).1 := by
  constructor <;> decide

/-- C3 (amended): the hotlist fetch itself issues exactly one upstream call
on every invocation (it has no cache). The TTL memoization in the repository
is the Garmoth bidding-orders cache: a call within the TTL returns the
stored orders unchanged with no upstream call and leaves the cache intact;
two sequential calls within the TTL issue exactly one upstream call; and a
call after TTL expiry issues one more upstream call and stores a strictly
newer timestamp. -/
theorem C3_caching :
    (∀ (fmt : Int → String) (attempts : Nat → HttpOutcome),
      (fetch_hotlist fmt attempts).2 = 1) ∧
    (∀ (e : GCacheEntry) (now : Nat) (up : Option GData) (ct : Nat),
      now - e.ts < ct →
      get_orders_from_garmoth_api (some e) now up ct
        = ((e.orders, e.info), some e, false)) ∧
    (∀ (t₀ t₁ : Nat) (d₁ d₂ : GData) (ct : Nat), t₁ - t₀ < ct →
      (get_orders_from_garmoth_api none t₀ (some d₁) ct).2.2 = true ∧
      (get_orders_from_garmoth_api
        (get_orders_from_garmoth_api none t₀ (some d₁) ct).2.1 t₁ (some d₂) ct).2.2
        = false) ∧
    (∀ (e : GCacheEntry) (t₁ : Nat) (d : GData) (ct : Nat),
      ¬(t₁ - e.ts < ct) → 0 < ct →
      get_orders_from_garmoth_api (some e) t₁ (some d) ct
        = ((extractOrders d, d.info), some ⟨t₁, extractOrders d, d.info⟩, true) ∧
      e.ts < t₁) := by
  refine ⟨?_, ?_, ?_, ?_⟩
  · intro fmt attempts
    rcases h : attempts 0 with _ | resp
    · simp [fetch_hotlist, api_request, h]
    · by_cases hs : 400 ≤ resp.status <;> simp [fetch_hotlist, api_request, h, hs]
  · intro e now up ct hlt
    simp [get_orders_from_garmoth_api, hlt]
  · intro t₀ t₁ d₁ d₂ ct hlt
    constructor
    · simp [get_orders_from_garmoth_api, garmothFetch]
    · simp [get_orders_from_garmoth_api, garmothFetch, hlt]
  · intro e t₁ d ct hge hct
    refine ⟨?_, by omega⟩
    simp [get_orders_from_garmoth_api, garmothFetch, hge]

/-- C3 witness: the cache-hit and expiry branches at concrete times
(`ts = 0`, `now = 5`, TTL `10`; expiry at `now = 12`). -/
theorem C3_caching_witness :
    ((5 : Nat) - (GCacheEntry.mk 0 [] none).ts < 10 ∧
     get_orders_from_garmoth_api (some (GCacheEntry.mk 0 [] none)) 5 none 10
        = (([], none), some (GCacheEntry.mk 0 [] none), false)) ∧
    (¬((12 : Nat) - (GCacheEntry.mk 0 [] none).ts < 10) ∧ (0 : Nat) < 10 ∧
     get_orders_from_garmoth_api (some (GCacheEntry.mk 0 [] none)) 12
        (some (GData.mk (some [[1, 2, 3]]) none)) 10
        = (([⟨1, 2, 3⟩], none),
           some ⟨12, [⟨1, 2, 3⟩], none⟩, true) ∧
     (GCacheEntry.mk 0 [] none).ts < 12) :=
  ⟨⟨by decide, C3_caching.2.1 _ 5 none 10 (by decide)⟩,
   ⟨by decide, by decide,
    (C3_caching.2.2.2 (GCacheEntry.mk 0 [] none) 12
      (GData.mk (some [[1, 2, 3]]) none) 10 (by decide) (by decide)).1,
    (C3_caching.2.2.2 (GCacheEntry.mk 0 [] none) 12
      (GData.mk (some [[1, 2, 3]]) none) 10 (by decide) (by decide)).2⟩⟩

/-- C7: every bidding ladder attached to a market entry by
`get_market_and_bidding` is sorted by price in descending order, and the
sublist at any fixed price equals the sublist of the parsed input at that
price — ties keep their relative parse order (stable sort), for every input
ordering of the bidding response. -/
theorem C7_bidding_ladder_sorted_stable (fmt : Int → String)
    (marketResp : Except TransportError HttpResponse)
    (biddingResp : Int → Except TransportError HttpResponse)
    (enhFilter : Option (Int × Int)) (e : EnrichedMarketItem) (p : Int)
    (he : e ∈ get_market_and_bidding fmt marketResp biddingResp enhFilter) :
    e.bidding_info.Pairwise (fun a b => b.price ≤ a.price) ∧
    e.bidding_info.filter (fun x => decide (x.price = p))
      = (fetch_bidding_info (biddingResp e.entry.enhancement_max)).filter
          (fun x => decide (x.price = p)) := by
  simp only [get_market_and_bidding] at he
  rcases List.mem_map.mp he with ⟨item, _, rfl⟩
  by_cases hbe : fetch_bidding_info (biddingResp item.enhancement_max) = []
  · constructor
    · simp [hbe]
    · simp [hbe]
  · constructor
    · simpa [hbe] using
        sortBiddingDesc_sorted (fetch_bidding_info (biddingResp item.enhancement_max))
    · simpa [hbe] using
        filter_sortBiddingDesc (fetch_bidding_info (biddingResp item.enhancement_max)) p

/-- C7 witness: one market entry whose bidding response arrives unsorted
with a price tie; the attached ladder is the stable descending sort. -/
theorem C7_bidding_ladder_sorted_stable_witness :
    (EnrichedMarketItem.mk ⟨1, 0, 0, 0, 0, 0, 0, 0, 0, 0, "-"⟩
        [⟨7, 2, 2⟩, ⟨5, 1, 1⟩, ⟨5, 3, 3⟩]
      ∈ get_market_and_bidding (fun _ => "-")
          (.ok ⟨200, none, some ("|1-0-0-0-0-0-0-0-0-0|".toList)⟩)
          (fun _ => .ok ⟨200, some ("5-1-1|7-2-2|5-3-3".toList), none⟩) none) ∧
    ((EnrichedMarketItem.mk ⟨1, 0, 0, 0, 0, 0, 0, 0, 0, 0, "-"⟩
        [⟨7, 2, 2⟩, ⟨5, 1, 1⟩, ⟨5, 3, 3⟩]).bidding_info.Pairwise
          (fun a b => b.price ≤ a.price) ∧
     (EnrichedMarketItem.mk ⟨1, 0, 0, 0, 0, 0, 0, 0, 0, 0, "-"⟩
        [⟨7, 2, 2⟩, ⟨5, 1, 1⟩, ⟨5, 3, 3⟩]).bidding_info.filter
          (fun x => decide (x.price = 5))
      = (fetch_bidding_info ((fun _ => Except.ok
            (HttpResponse.mk 200 (some ("5-1-1|7-2-2|5-3-3".toList)) none))
          (EnrichedMarketItem.mk ⟨1, 0, 0, 0, 0, 0, 0, 0, 0, 0, "-"⟩
            [⟨7, 2, 2⟩, ⟨5, 1, 1⟩, ⟨5, 3, 3⟩]).entry.enhancement_max)).filter
          (fun x => decide (x.price = 5))) :=
  ⟨by decide,
   C7_bidding_ladder_sorted_stable (fun _ => "-")
     (.ok ⟨200, none, some ("|1-0-0-0-0-0-0-0-0-0|".toList)⟩)
     (fun _ => .ok ⟨200, some ("5-1-1|7-2-2|5-3-3".toList), none⟩) none
     (EnrichedMarketItem.mk ⟨1, 0, 0, 0, 0, 0, 0, 0, 0, 0, "-"⟩
       [⟨7, 2, 2⟩, ⟨5, 1, 1⟩, ⟨5, 3, 3⟩]) 5 (by decide)⟩

/-- C8: if the bidding fetch fails (transport error) for one sub-key, the
aggregator still returns one enriched entry per market entry: entries whose
sub-key failed get an empty ladder, and every other entry is enriched
exactly as it would be had that fetch succeeded; nothing is raised (the
aggregator is a total function). -/
theorem C8_bidding_failure_isolated (fmt : Int → String)
    (marketResp : Except TransportError HttpResponse)
    (br br' : Int → Except TransportError HttpResponse)
    (enhFilter : Option (Int × Int)) (k₀ : Int) (err : TransportError)
    (herr : br k₀ = .error err)
    (hagree : ∀ k, k ≠ k₀ → br k = br' k) :
    get_market_and_bidding fmt marketResp br enhFilter
      = (get_market_and_bidding fmt marketResp br' enhFilter).map
          (fun e => if e.entry.enhancement_max = k₀ then ⟨e.entry, []⟩ else e) ∧
    ∀ e ∈ get_market_and_bidding fmt marketResp br enhFilter,
      e.entry.enhancement_max = k₀ → e.bidding_info = [] := by
  have hmain : get_market_and_bidding fmt marketResp br enhFilter
      = (get_market_and_bidding fmt marketResp br' enhFilter).map
          (fun e => if e.entry.enhancement_max = k₀ then ⟨e.entry, []⟩ else e) := by
    simp only [get_market_and_bidding]
    rw [List.map_map]
    apply List.map_congr_left
    intro item _
    by_cases hk : item.enhancement_max = k₀
    · simp only [Function.comp_apply, hk, herr]
      simp [fetch_bidding_info]
    · rw [hagree item.enhancement_max hk]
      simp [Function.comp, hk]
  refine ⟨hmain, ?_⟩
  intro e he hk
  rw [hmain] at he
  rcases List.mem_map.mp he with ⟨e', _, rfl⟩
  by_cases h : e'.entry.enhancement_max = k₀
  · simp [h]
  · exact absurd (by simpa [h] using hk) h

/-- C8 witness: two market entries (sub-keys 0 and 1); the bidding fetch
fails for sub-key 0 only; entry 0 gets an empty ladder and entry 1 is
enriched as with the non-failing oracle. -/
theorem C8_bidding_failure_isolated_witness :
    ((fun k : Int => if k = 0 then Except.error TransportError.networkError
        else Except.ok (HttpResponse.mk 200 (some ("5-1-1".toList)) none)) 0
      = Except.error TransportError.networkError ∧
     (∀ k : Int, k ≠ 0 →
       (fun k : Int => if k = 0 then Except.error TransportError.networkError
          else Except.ok (HttpResponse.mk 200 (some ("5-1-1".toList)) none)) k
        = (fun _ : Int => Except.ok
            (HttpResponse.mk 200 (some ("5-1-1".toList)) none)) k)) ∧
    (get_market_and_bidding (fun _ => "-")
        (.ok ⟨200, none, some ("|1-0-0-0-0-0-0-0-0-0|1-1-1-0-0-0-0-0-0-0|".toList)⟩)
        (fun k : Int => if k = 0 then Except.error TransportError.networkError
          else Except.ok (HttpResponse.mk 200 (some ("5-1-1".toList)) none)) none
      = (get_market_and_bidding (fun _ => "-")
          (.ok ⟨200, none, some ("|1-0-0-0-0-0-0-0-0-0|1-1-1-0-0-0-0-0-0-0|".toList)⟩)
          (fun _ : Int => Except.ok
            (HttpResponse.mk 200 (some ("5-1-1".toList)) none)) none).map
          (fun e => if e.entry.enhancement_max = 0 then ⟨e.entry, []⟩ else e) ∧
     ∀ e ∈ get_market_and_bidding (fun _ => "-")
        (.ok ⟨200, none, some ("|1-0-0-0-0-0-0-0-0-0|1-1-1-0-0-0-0-0-0-0|".toList)⟩)
        (fun k : Int => if k = 0 then Except.error TransportError.networkError
          else Except.ok (HttpResponse.mk 200 (some ("5-1-1".toList)) none)) none,
       e.entry.enhancement_max = 0 → e.bidding_info = []) :=
  ⟨⟨rfl, fun _ hk => if_neg hk⟩,
   C8_bidding_failure_isolated (fun _ => "-")
     (.ok ⟨200, none, some ("|1-0-0-0-0-0-0-0-0-0|1-1-1-0-0-0-0-0-0-0|".toList)⟩)
     (fun k : Int => if k = 0 then Except.error TransportError.networkError
       else Except.ok (HttpResponse.mk 200 (some ("5-1-1".toList)) none))
     (fun _ : Int => Except.ok (HttpResponse.mk 200 (some ("5-1-1".toList)) none))
     none 0 TransportError.networkError rfl (fun _ hk => if_neg hk)⟩

/-- C10: a record accepted by the hotlist parser keeps its first delimited
field as raw text in `item_id` (it is never integer-parsed: any raw text in
field 0 parses identically), the other eleven fields are the integer parses
of fields 1..11, the derived timestamp string is computed from
`last_sale_time`, and the downstream name enrichment keys the directory by
exactly that raw first field. -/
theorem C10_hotlist_raw_item_id (fmt : Int → String) (vs : List (List Char))
    (it : HotlistItem) (hlen : vs.length = 12)
    (hparse : parseHotlistRecord fmt vs = some it) :
    (it.item_id = vs.getD 0 [] ∧
     pyInt (vs.getD 1 []) = some it.enh_min ∧
     pyInt (vs.getD 2 []) = some it.enh_max ∧
     pyInt (vs.getD 3 []) = some it.base_price ∧
     pyInt (vs.getD 4 []) = some it.stock ∧
     pyInt (vs.getD 5 []) = some it.total_trades ∧
     pyInt (vs.getD 6 []) = some it.price_dir ∧
     pyInt (vs.getD 7 []) = some it.price_change ∧
     pyInt (vs.getD 8 []) = some it.price_min ∧
     pyInt (vs.getD 9 []) = some it.price_max ∧
     pyInt (vs.getD 10 []) = some it.last_sale_price ∧
     pyInt (vs.getD 11 []) = some it.last_sale_time ∧
     it.last_sale_time_ro = fmt it.last_sale_time) ∧
    (∀ raw : List Char,
      parseHotlistRecord fmt (raw :: vs.tail) = some { it with item_id := raw }) ∧
    (∀ db : List (List Char × String),
      hotlist_with_names db [it] = [(it, lookup_name db (vs.getD 0 []))]) := by
  cases vs with
  | nil => simp at hlen
  | cons v0 tail =>
    rw [parseHotlistRecord] at hparse
    simp only [List.tail_cons] at hparse
    rcases hf : parseFields tail with _ | ns <;> rw [hf] at hparse
    · exact absurd hparse (by simp)
    · rcases Option.some.inj hparse with rfl
      have htail : tail.length = 11 := by simpa using hlen
      have hg := parseFields_getD hf
      refine ⟨⟨rfl, ?_, ?_, ?_, ?_, ?_, ?_, ?_, ?_, ?_, ?_, ?_, rfl⟩, ?_, ?_⟩
      · simpa [mkHotlistItem] using hg 0 (by omega)
      · simpa [mkHotlistItem] using hg 1 (by omega)
      · simpa [mkHotlistItem] using hg 2 (by omega)
      · simpa [mkHotlistItem] using hg 3 (by omega)
      · simpa [mkHotlistItem] using hg 4 (by omega)
      · simpa [mkHotlistItem] using hg 5 (by omega)
      · simpa [mkHotlistItem] using hg 6 (by omega)
      · simpa [mkHotlistItem] using hg 7 (by omega)
      · simpa [mkHotlistItem] using hg 8 (by omega)
      · simpa [mkHotlistItem] using hg 9 (by omega)
      · simpa [mkHotlistItem] using hg 10 (by omega)
      · intro raw
        simp only [parseHotlistRecord, List.tail_cons, hf]
        rfl
      · intro db
        simp [hotlist_with_names, mkHotlistItem]

/-- C10 witness: a concrete accepted hotlist record. -/
theorem C10_hotlist_raw_item_id_witness :
    (["77".toList, "1".toList, "2".toList, "3".toList, "4".toList, "5".toList,
      "6".toList, "7".toList, "8".toList, "9".toList, "10".toList,
      "11".toList].length = 12 ∧
     parseHotlistRecord (fun _ => "-")
        ["77".toList, "1".toList, "2".toList, "3".toList, "4".toList,
         "5".toList, "6".toList, "7".toList, "8".toList, "9".toList,
         "10".toList, "11".toList]
       = some ⟨"77".toList, 1, 2, 3, 4, 5, 6, 7, 8, 9, 10, 11, "-"⟩) ∧
    (HotlistItem.mk ("77".toList) 1 2 3 4 5 6 7 8 9 10 11 "-").item_id
      = (["77".toList, "1".toList, "2".toList, "3".toList, "4".toList,
          "5".toList, "6".toList, "7".toList, "8".toList, "9".toList,
          "10".toList, "11".toList].getD 0 []) :=
  ⟨⟨by decide, by decide⟩,
   ((C10_hotlist_raw_item_id (fun _ => "-")
      ["77".toList, "1".toList, "2".toList, "3".toList, "4".toList,
       "5".toList, "6".toList, "7".toList, "8".toList, "9".toList,
       "10".toList, "11".toList]
      ⟨"77".toList, 1, 2, 3, 4, 5, 6, 7, 8, 9, 10, 11, "-"⟩
      (by decide) (by decide)).1).1⟩

end BdoArb
